import Mathlib

/-!
Verification development for `sync_docs.py`, a script that mirrors the
documentation pages listed in a sitemap to local markdown files.

The script is embedded shallowly:

* Python strings are modelled as `List Char`.
* The parsed sitemap XML document is modelled by the mutual inductive
  `Xml` / `XmlList` (tag, optional text, children).  Tag strings stand for
  the namespace-qualified names produced by the XML parser, so the tag
  `"loc"` stands for the qualified sitemap `loc` name.
* Network I/O is modelled by explicit response values: the sitemap response
  is `Option (Nat × Option Xml)` (`none` = transport failure, the inner
  `Option Xml` is `none` when the body is not well-formed XML), and page
  downloads are served by an oracle `net : List Char → Option (Nat × List Char)`
  mapping a requested URL to `none` (transport exception) or
  `some (status, body)`.
* Filesystem writes and log lines are recorded in the `DownloadResult`
  record instead of being performed.
* The `asyncio.Semaphore` admission gate is modelled as a labelled
  transition system over per-task phases (`Phase`), with `GateStep` /
  `GateReach` describing the scheduler's possible interleavings.
-/

namespace SyncDocs

mutual

/-- An XML element: tag name, optional text content, and child elements.
Models the `xml.etree.ElementTree` view of the sitemap document. -/
inductive Xml where
  | elem (tag : String) (text : Option (List Char)) (children : XmlList)

inductive XmlList where
  | nil
  | cons (head : Xml) (tail : XmlList)

end

def Xml.tag : Xml → String
  | Xml.elem t _ _ => t

def Xml.text : Xml → Option (List Char)
  | Xml.elem _ x _ => x

def Xml.children : Xml → XmlList
  | Xml.elem _ _ cs => cs

mutual

/-- Elements matching tag `loc` in a subtree, in document (preorder) order,
the element itself included.  Together with `locsIn` this embeds the
element search performed by `root.findall(".//ns:loc", ns)`. -/
def locsOf : Xml → List Xml
  | Xml.elem t x cs => (if t == "loc" then [Xml.elem t x cs] else []) ++ locsIn cs

def locsIn : XmlList → List Xml
  | XmlList.nil => []
  | XmlList.cons e es => locsOf e ++ locsIn es

end

mutual

/-- All elements of a subtree in document (preorder) order. -/
def preorderOf : Xml → List Xml
  | Xml.elem t x cs => Xml.elem t x cs :: preorderIn cs

def preorderIn : XmlList → List Xml
  | XmlList.nil => []
  | XmlList.cons e es => preorderOf e ++ preorderIn es

end

mutual

/-- Number of `loc` elements in a subtree / list of subtrees. -/
def countLoc : Xml → Nat
  | Xml.elem t _ cs => (if t == "loc" then 1 else 0) + countLocIn cs

def countLocIn : XmlList → Nat
  | XmlList.nil => 0
  | XmlList.cons e es => countLoc e + countLocIn es

end

/-- Embeds `root.findall(".//ns:loc", ns)`: all `loc` descendants of the
root element, in document order (the root itself is not a candidate,
matching the `.//` path). -/
def findallLoc (root : Xml) : List Xml := locsIn root.children

/-- Embeds `[loc.text for loc in root.findall(".//ns:loc", ns)]`: the raw
text of every location entry, in document order.  `none` models a `loc`
element with no text (Python `loc.text is None`). -/
def readerTexts (root : Xml) : List (Option (List Char)) :=
  (findallLoc root).map Xml.text

/-- True when the string starts with the documentation-root marker
`"/docs/"`. -/
def isMarkerAt : List Char → Bool
  | '/' :: 'd' :: 'o' :: 'c' :: 's' :: '/' :: _ => true
  | _ => false

/-- Embeds the Python substring test `"/docs/" in url`. -/
def hasMarker : List Char → Bool
  | [] => false
  | c :: cs => isMarkerAt (c :: cs) || hasMarker cs

/-- Number of (possibly overlapping) occurrences of `"/docs/"`. -/
def countOcc : List Char → Nat
  | [] => 0
  | c :: cs => (if isMarkerAt (c :: cs) then 1 else 0) + countOcc cs

/-- Embeds `url.split("/docs/")[-1]`: Python `str.split` scans left to
right taking non-overlapping matches of the separator, and `[-1]` keeps
the final piece, i.e. the suffix after the last match of that scan (the
whole string when there is no match). -/
def splitDocsLast : List Char → List Char
  | '/' :: 'd' :: 'o' :: 'c' :: 's' :: '/' :: rest =>
      if hasMarker rest then splitDocsLast rest else rest
  | c :: cs => if hasMarker cs then splitDocsLast cs else c :: cs
  | [] => []

/-- The suffix after the first occurrence of `"/docs/"` (the empty string
when there is none); used to contrast the code's behaviour with a
first-occurrence reading. -/
def afterFirstOcc : List Char → List Char
  | '/' :: 'd' :: 'o' :: 'c' :: 's' :: '/' :: rest => rest
  | _ :: cs => afterFirstOcc cs
  | [] => []

/-- The suffix after the last (possibly overlapping) occurrence of
`"/docs/"`, the whole string when there is none.  This is the reading
"text after the last occurrence of the marker" of the spec, to be
compared with `splitDocsLast`. -/
def afterLastOcc : List Char → List Char
  | [] => []
  | c :: cs =>
      if isMarkerAt (c :: cs) && !hasMarker cs then (c :: cs).drop 6
      else if hasMarker cs then afterLastOcc cs
      else c :: cs

/-- The fixed list of excluded language codes, from the regular expression
`^(de|es|fr|id|it|ja|ko|pt|ru|zh-CN|zh-TW)/`. -/
def langCodes : List (List Char) :=
  ["de", "es", "fr", "id", "it", "ja", "ko", "pt", "ru", "zh-CN", "zh-TW"].map String.toList

/-- Embeds `re.match(r"^(de|es|...|zh-TW)/", path_after_docs)` viewed as a
boolean: the path starts with one of the language codes immediately
followed by `/`. -/
def hasLangMatch (p : List Char) : Bool :=
  langCodes.any (fun c => List.isPrefixOf (c ++ ['/']) p)

/-- Embeds the URL loop of `fetch_sitemap` (lines 24-32): for each `loc`
text, keep it when it is truthy (`some` and nonempty), contains the
`"/docs/"` marker, and its path after the marker does not start with an
excluded language code. -/
def fetchFilter : List (Option (List Char)) → List (List Char)
  | [] => []
  | none :: rest => fetchFilter rest
  | some url :: rest =>
      if !url.isEmpty && hasMarker url then
        if !hasLangMatch (splitDocsLast url) then url :: fetchFilter rest
        else fetchFilter rest
      else fetchFilter rest

/-- Failure modes of the sitemap stage: `fetchError` models a transport
error raised by the HTTP client (`aiohttp.ClientError` and kin),
`parseError` models `xml.etree.ElementTree.ParseError`. -/
inductive SyncErr where
  | fetchError
  | parseError
deriving DecidableEq

/-- Embeds `fetch_sitemap`: one GET of the sitemap URL.  A transport
failure propagates.  The response body is parsed as XML — the HTTP status
is never inspected by the source — and the filtered list of URLs is
returned. -/
def fetch_sitemap (resp : Option (Nat × Option Xml)) : Except SyncErr (List (List Char)) :=
  match resp with
  | none => Except.error SyncErr.fetchError
  | some (_, none) => Except.error SyncErr.parseError
  | some (_, some root) => Except.ok (fetchFilter (readerTexts root))

/-- Embeds Python `url.rstrip("/")`: remove every trailing `/`. -/
def rstripSlash (s : List Char) : List Char :=
  (s.reverse.dropWhile (fun c => c == '/')).reverse

/-- Embeds Python `s.strip("/")`: remove every leading and trailing `/`. -/
def stripSlash (s : List Char) : List Char :=
  rstripSlash (s.dropWhile (fun c => c == '/'))

/-- Embeds `md_url = url.rstrip("/") + ".md"` (line 40). -/
def mdUrl (url : List Char) : List Char := rstripSlash url ++ ".md".toList

/-- Embeds lines 47-49: `path_after_docs = url.split("/docs/")[-1].strip("/")`,
defaulting to `"index"` when empty. -/
def destRelPath (url : List Char) : List Char :=
  let p := stripSlash (splitDocsLast url)
  if p.isEmpty then "index".toList else p

/-- The output root directory (`DOCS_DIR = Path("docs")`). -/
def DOCS_DIR : List Char := "docs".toList

/-- The concurrency limit (`CONCURRENT_REQUESTS = 10`). -/
def CONCURRENT_REQUESTS : Nat := 10

/-- Embeds `filepath = DOCS_DIR / f"{path_after_docs}.md"` (line 51). -/
def filePathFor (url : List Char) : List Char :=
  DOCS_DIR ++ '/' :: (destRelPath url ++ ".md".toList)

/-- The observable effects of one `download_doc` call: the returned
`(url, ok)` pair, the file write it performed (path and content), if any,
and the URL it logged in the exception handler, if any. -/
structure DownloadResult where
  outcome : (List Char) × Bool
  written : Option ((List Char) × (List Char))
  logged : Option (List Char)
deriving DecidableEq

/-- Embeds `download_doc` (lines 37-60): request `mdUrl url` from the
network; on status 200 write the body verbatim to `filePathFor url` and
report success; on any other status report failure with no write; on a
transport exception (`net` returns `none`) log the URL and report failure.
The function is total: no failure propagates out of a single download. -/
def download_doc (net : List Char → Option (Nat × List Char)) (url : List Char) :
    DownloadResult :=
  match net (mdUrl url) with
  | none => { outcome := (url, false), written := none, logged := some url }
  | some (status, body) =>
      if status = 200 then
        { outcome := (url, true), written := some (filePathFor url, body), logged := none }
      else
        { outcome := (url, false), written := none, logged := none }

/-- Embeds lines 74-76: one `download_doc` task per retained URL, results
collected in task order (`asyncio.gather` preserves the order in which
tasks were passed). -/
def runDownloads (net : List Char → Option (Nat × List Char)) (urls : List (List Char)) :
    List DownloadResult :=
  urls.map (download_doc net)

/-- Embeds `main` (lines 63-87): fetch and filter the sitemap — an error
there propagates and aborts the run with no downloads — then run every
download and collect the results. -/
def runMain (resp : Option (Nat × Option Xml))
    (net : List Char → Option (Nat × List Char)) :
    Except SyncErr (List DownloadResult) :=
  match fetch_sitemap resp with
  | Except.error e => Except.error e
  | Except.ok urls => Except.ok (runDownloads net urls)

/-- Embeds the summary counters of lines 78-79: `(success, failed)`. -/
def tally (rs : List DownloadResult) : Nat × Nat :=
  (rs.countP (fun r => r.outcome.2), rs.countP (fun r => !r.outcome.2))

/-- Whether the run completed normally (process exits with success). -/
def exceptOk : Except SyncErr (List DownloadResult) → Bool
  | Except.ok _ => true
  | Except.error _ => false

/-- Phase of one download task with respect to the admission gate:
not yet admitted, currently holding a slot, or finished (slot given
back). -/
inductive Phase where
  | pending
  | holding
  | done
deriving DecidableEq

/-- The three ways the body of the `async with semaphore:` block can end,
from the source: a 200 response (success), any other status, or an
exception caught by the handler. -/
inductive ExitPath where
  | success
  | badStatus
  | exc

/-- Number of tasks currently holding an admission-gate slot. -/
def holdersCount (ps : List Phase) : Nat :=
  ps.countP (fun q => q == Phase.holding)

/-- One scheduler step of the semaphore-bounded download tasks:
a pending task may acquire a slot only while fewer than `limit` tasks
hold one (`asyncio.Semaphore(limit)`), and a task holding a slot releases
it when its body completes by any of the three exit paths (`async with`
releases on every exit). -/
inductive GateStep (limit : Nat) : List Phase → List Phase → Prop
  | acquire (ps : List Phase) (i : Nat)
      (hp : ps[i]? = some Phase.pending)
      (hfree : holdersCount ps < limit) :
      GateStep limit ps (ps.set i Phase.holding)
  | finish (ps : List Phase) (i : Nat) (e : ExitPath)
      (hp : ps[i]? = some Phase.holding) :
      GateStep limit ps (ps.set i Phase.done)

/-- Reflexive-transitive closure of `GateStep`: the states a run can
reach. -/
inductive GateReach (limit : Nat) : List Phase → List Phase → Prop
  | refl (ps : List Phase) : GateReach limit ps ps
  | tail {ps qs rs : List Phase} :
      GateReach limit ps qs → GateStep limit qs rs → GateReach limit ps rs

/-- Concrete sitemap document used in witnesses: a `urlset` with a single
English `loc` entry. -/
def xmlEx : Xml :=
  Xml.elem "urlset" none
    (XmlList.cons
      (Xml.elem "loc" (some "https://example.com/docs/overview".toList) XmlList.nil)
      XmlList.nil)

/-- Network oracle answering 200 with a fixed body for every URL. -/
def netOk : List Char → Option (Nat × List Char) :=
  fun _ => some (200, "BODY".toList)

/-- Network oracle answering 404 with an empty body for every URL. -/
def net404 : List Char → Option (Nat × List Char) :=
  fun _ => some (404, [])

/-- The URL list produced from `xmlEx` followed by all downloads against
`netOk`. -/
def resultsEx : List DownloadResult :=
  runDownloads netOk (fetchFilter (readerTexts xmlEx))

/-- The spec's example of a URL with two (non-overlapping) marker
occurrences. -/
def exUrl : List Char := "https://example.com/docs/guide/docs/de/x".toList

/-- A URL whose two marker occurrences overlap on the shared `/`. -/
def cexUrl : List Char := "https://x/docs/docs/".toList

/-- Concrete sitemap used in the C3 witness: two `url` entries each holding
a `loc` child, exercising depth-2 search. -/
def xmlW : Xml :=
  Xml.elem "urlset" none
    (XmlList.cons
      (Xml.elem "url" none
        (XmlList.cons
          (Xml.elem "loc" (some "https://example.com/docs/a".toList) XmlList.nil)
          XmlList.nil))
      (XmlList.cons
        (Xml.elem "url" none
          (XmlList.cons
            (Xml.elem "loc" (some "https://example.com/docs/de/b".toList) XmlList.nil)
            XmlList.nil))
        XmlList.nil))

/-! Helper lemmas. -/

theorem hasMarker_isEmpty_false {url : List Char} (h : hasMarker url = true) :
    url.isEmpty = false := by
  cases url with
  | nil => simp [hasMarker] at h
  | cons c cs => rfl

theorem takeWhile_slash_eq_replicate (l : List Char) :
    l.takeWhile (fun c => c == '/') =
      List.replicate (l.takeWhile (fun c => c == '/')).length '/' := by
  apply List.eq_replicate_of_mem
  intro b hb
  have hpb := List.mem_takeWhile_imp hb
  simpa using hpb

theorem head?_dropWhile_slash (l : List Char) :
    (l.dropWhile (fun c => c == '/')).head? ≠ some '/' := by
  induction l with
  | nil => simp
  | cons a t ih =>
    rw [List.dropWhile_cons]
    by_cases h : (a == '/') = true
    · simpa [h] using ih
    · simp only [h]
      simp only [Bool.false_eq_true, if_false, List.head?_cons, ne_eq, Option.some.injEq]
      intro hc
      exact h (by simp [hc])

theorem rstripSlash_decomp (l : List Char) :
    ∃ k, l = rstripSlash l ++ List.replicate k '/'
      ∧ (rstripSlash l).getLast? ≠ some '/' := by
  refine ⟨(l.reverse.takeWhile (fun c => c == '/')).length, ?_, ?_⟩
  · have h1 : l.reverse.takeWhile (fun c => c == '/') ++ l.reverse.dropWhile (fun c => c == '/')
        = l.reverse := List.takeWhile_append_dropWhile _ _
    have h2 : l = (l.reverse.takeWhile (fun c => c == '/')
        ++ l.reverse.dropWhile (fun c => c == '/')).reverse := by
      rw [h1, List.reverse_reverse]
    conv_lhs => rw [h2]
    rw [List.reverse_append, rstripSlash]
    congr 1
    rw [takeWhile_slash_eq_replicate l.reverse, List.reverse_replicate]
    rw [List.length_replicate]
  · rw [rstripSlash, List.getLast?_reverse]
    exact head?_dropWhile_slash l.reverse

theorem rstripSlash_head? (l : List Char) (c : Char)
    (h : (rstripSlash l).head? = some c) : l.head? = some c := by
  obtain ⟨k, hk, _⟩ := rstripSlash_decomp l
  rw [hk, List.head?_append, h]
  rfl

theorem stripSlash_decomp (l : List Char) :
    ∃ j k, l = List.replicate j '/' ++ stripSlash l ++ List.replicate k '/'
      ∧ (stripSlash l).head? ≠ some '/'
      ∧ (stripSlash l).getLast? ≠ some '/' := by
  have hsl : stripSlash l = rstripSlash (l.dropWhile (fun c => c == '/')) := rfl
  obtain ⟨k, hk, hlast⟩ := rstripSlash_decomp (l.dropWhile (fun c => c == '/'))
  refine ⟨(l.takeWhile (fun c => c == '/')).length, k, ?_, ?_, by rw [hsl]; exact hlast⟩
  · conv_lhs => rw [← List.takeWhile_append_dropWhile (fun c => c == '/') l]
    rw [hk, ← List.append_assoc]
    congr 2
    rw [takeWhile_slash_eq_replicate l, List.length_replicate]
  · rw [hsl]
    intro hc
    have hd : (l.dropWhile (fun c => c == '/')).head? = some '/' :=
      rstripSlash_head? _ _ hc
    exact head?_dropWhile_slash l hd

theorem hasLangMatch_iff_decomp (p : List Char) :
    hasLangMatch p = true ↔ ∃ c ∈ langCodes, ∃ rest, p = c ++ '/' :: rest := by
  rw [hasLangMatch, List.any_eq_true]
  constructor
  · rintro ⟨c, hc, hpre⟩
    have hp : (c ++ ['/']) <+: p := List.isPrefixOf_iff_prefix.mp hpre
    rcases hp with ⟨t, ht⟩
    refine ⟨c, hc, t, ?_⟩
    rw [← ht, List.append_assoc]
    rfl
  · rintro ⟨c, hc, t, hp⟩
    refine ⟨c, hc, ?_⟩
    rw [ List.isPrefixOf_iff_prefix]
    exact ⟨t, by rw [hp, List.append_assoc]; rfl⟩

theorem fetchFilter_sublist (locs : List (Option (List Char))) :
    (fetchFilter locs).Sublist (locs.filterMap id) := by
  induction locs with
  | nil => simp [fetchFilter]
  | cons o rest ih =>
    cases o with
    | none => simpa [fetchFilter, List.filterMap_cons] using ih
    | some u =>
      rw [List.filterMap_cons]
      simp only [id]
      by_cases h1 : (!u.isEmpty && hasMarker u) = true
      · by_cases h2 : (!hasLangMatch (splitDocsLast u)) = true
        · rw [show fetchFilter (some u :: rest) = u :: fetchFilter rest by
            rw [fetchFilter]; rw [if_pos h1, if_pos h2]]
          exact List.Sublist.cons₂ u ih
        · rw [show fetchFilter (some u :: rest) = fetchFilter rest by
            rw [fetchFilter]; rw [if_pos h1, if_neg h2]]
          exact List.Sublist.cons u ih
      · rw [show fetchFilter (some u :: rest) = fetchFilter rest by
          rw [fetchFilter]; rw [if_neg h1]]
        exact List.Sublist.cons u ih

theorem download_doc_outcome_fst (net : List Char → Option (Nat × List Char))
    (u : List Char) : (download_doc net u).outcome.1 = u := by
  cases h : net (mdUrl u) with
  | none => simp [download_doc, h]
  | some sb =>
    obtain ⟨s, b⟩ := sb
    by_cases hs : s = 200 <;> simp [download_doc, h, hs]

theorem runDownloads_map_fst (net : List Char → Option (Nat × List Char))
    (urls : List (List Char)) :
    (runDownloads net urls).map (fun r => r.outcome.1) = urls := by
  induction urls with
  | nil => rfl
  | cons u t ih =>
    rw [runDownloads, List.map_cons, List.map_cons, download_doc_outcome_fst]
    rw [runDownloads] at ih
    rw [ih]

theorem runDownloads_getElem? (net : List Char → Option (Nat × List Char))
    (urls : List (List Char)) (i : Nat) (u : List Char) (h : urls[i]? = some u) :
    (runDownloads net urls)[i]? = some (download_doc net u) := by
  rw [runDownloads, List.getElem?_map, h]
  rfl

theorem tally_sum (rs : List DownloadResult) :
    (tally rs).1 + (tally rs).2 = rs.length := by
  induction rs with
  | nil => rfl
  | cons r t ih =>
    simp only [tally, List.countP_cons, List.length_cons] at *
    by_cases h : r.outcome.2 = true <;> simp [h] <;> omega

mutual

theorem locsOf_eq_filter (e : Xml) :
    locsOf e = (preorderOf e).filter (fun x => x.tag == "loc") := by
  cases e with
  | elem t x cs =>
    rw [locsOf, preorderOf, List.filter_cons, locsIn_eq_filter cs]
    by_cases h : (t == "loc") = true
    · simp [Xml.tag, h]
    · simp [Xml.tag, h]

theorem locsIn_eq_filter (cs : XmlList) :
    locsIn cs = (preorderIn cs).filter (fun x => x.tag == "loc") := by
  cases cs with
  | nil => rfl
  | cons e es =>
    rw [locsIn, preorderIn, List.filter_append, locsOf_eq_filter e, locsIn_eq_filter es]

end

mutual

theorem locsOf_length (e : Xml) : (locsOf e).length = countLoc e := by
  cases e with
  | elem t x cs =>
    rw [locsOf, countLoc]
    by_cases h : (t == "loc") = true
    · simp [h, locsIn_length cs]
      omega
    · simp [h, locsIn_length cs]

theorem locsIn_length (cs : XmlList) : (locsIn cs).length = countLocIn cs := by
  cases cs with
  | nil => rfl
  | cons e es =>
    rw [locsIn, countLocIn, List.length_append, locsOf_length e, locsIn_length es]

end

theorem exists_map_some_of_all_isSome {α : Type} (l : List (Option α))
    (h : ∀ o ∈ l, o.isSome = true) :
    ∃ s : List α, l = s.map some ∧ s.length = l.length := by
  induction l with
  | nil => exact ⟨[], rfl, rfl⟩
  | cons o t ih =>
    obtain ⟨s, hs, hl⟩ := ih (fun x hx => h x (List.mem_cons_of_mem _ hx))
    obtain ⟨a, rfl⟩ := Option.isSome_iff_exists.mp (h o (List.mem_cons_self _ _))
    exact ⟨a :: s, by simp [hs], by simp [hl]⟩

theorem countP_set (p : Phase → Bool) :
    ∀ (ps : List Phase) (i : Nat) (a b : Phase), ps[i]? = some a →
      (ps.set i b).countP p + (if p a = true then 1 else 0)
        = ps.countP p + (if p b = true then 1 else 0)
  | [], i, a, b, h => by simp at h
  | x :: t, 0, a, b, h => by
      rw [List.getElem?_cons_zero] at h
      obtain rfl : x = a := by simpa using h
      simp only [List.set_cons_zero, List.countP_cons]
      omega
  | x :: t, i + 1, a, b, h => by
      rw [List.getElem?_cons_succ] at h
      have ih := countP_set p t i a b h
      simp only [List.set_cons_succ, List.countP_cons]
      omega

theorem holdersCount_replicate_pending (n : Nat) :
    holdersCount (List.replicate n Phase.pending) = 0 := by
  induction n with
  | zero => rfl
  | succ m ih =>
    rw [holdersCount, List.replicate_succ, List.countP_cons]
    rw [holdersCount] at ih
    simp [ih]

theorem holdersCount_set_acquire (ps : List Phase) (i : Nat)
    (hp : ps[i]? = some Phase.pending) :
    holdersCount (ps.set i Phase.holding) = holdersCount ps + 1 := by
  have hc := countP_set (fun q => q == Phase.holding) ps i Phase.pending Phase.holding hp
  simp at hc
  simpa [holdersCount] using hc

theorem holdersCount_set_finish (ps : List Phase) (i : Nat)
    (hp : ps[i]? = some Phase.holding) :
    holdersCount (ps.set i Phase.done) + 1 = holdersCount ps := by
  have hc := countP_set (fun q => q == Phase.holding) ps i Phase.holding Phase.done hp
  simp at hc
  simpa [holdersCount] using hc

theorem gate_holders_le (limit n : Nat) (ps : List Phase)
    (h : GateReach limit (List.replicate n Phase.pending) ps) :
    holdersCount ps ≤ limit := by
  induction h with
  | refl => simp [holdersCount_replicate_pending]
  | @tail qs rs hreach hstep ih =>
    cases hstep with
    | acquire i hp hfree =>
      have hc := holdersCount_set_acquire qs i hp
      omega
    | finish i e hp =>
      have hc := holdersCount_set_finish qs i hp
      omega

/-! Claim theorems. -/

/-- Claim C1: for every URL of the Reader's output that contains the
documentation-root marker, the Language Filter excludes it if and only if
the path after the marker decomposes as one of the fixed language codes
followed by the path separator `/` and a remainder; a path that merely
starts with a code as a substring admits no such decomposition and the
URL is retained; and the retained URLs form an order-preserving sublist
of the Reader's output. -/
theorem langFilter_excludes_iff_exact_code (url : List Char)
    (h : hasMarker url = true) :
    (hasLangMatch (splitDocsLast url) = true ↔
        ∃ c ∈ langCodes, ∃ rest, splitDocsLast url = c ++ '/' :: rest)
    ∧ (url ∈ fetchFilter [some url] ↔ hasLangMatch (splitDocsLast url) = false)
    ∧ ∀ locs : List (Option (List Char)),
        (fetchFilter locs).Sublist (locs.filterMap id) := by
  refine ⟨hasLangMatch_iff_decomp _, ?_, fetchFilter_sublist⟩
  have hne := hasMarker_isEmpty_false h
  by_cases hl : hasLangMatch (splitDocsLast url) = true
  · simp [fetchFilter, hne, h, hl]
  · simp [fetchFilter, hne, h, hl]

/-- Witness for C1 at the spec's substring example: the path `design/x`
starts with the code `de` as a substring but is not an exact language
segment, so the URL is retained. -/
theorem langFilter_excludes_iff_exact_code_w :
    (hasLangMatch (splitDocsLast "https://example.com/docs/design/x".toList) = true ↔
        ∃ c ∈ langCodes, ∃ rest,
          splitDocsLast "https://example.com/docs/design/x".toList = c ++ '/' :: rest)
    ∧ ("https://example.com/docs/design/x".toList ∈
          fetchFilter [some "https://example.com/docs/design/x".toList] ↔
        hasLangMatch (splitDocsLast "https://example.com/docs/design/x".toList) = false)
    ∧ ∀ locs : List (Option (List Char)),
        (fetchFilter locs).Sublist (locs.filterMap id) :=
  langFilter_excludes_iff_exact_code _ (by decide)

/-- Counterexample to claim C2 as stated: the sitemap GET returns HTTP 500
with a body that happens to be well-formed sitemap XML; the source never
inspects the status, so the run does not abort — it proceeds to attempt
the page download and writes a file. -/
theorem sitemap_status_ignored_cex :
    runMain (some (500, some xmlEx)) netOk =
      Except.ok [{ outcome := ("https://example.com/docs/overview".toList, true),
                   written := some ("docs/overview.md".toList, "BODY".toList),
                   logged := none }] := rfl

/-- Claim C2 (amended): the Reader fails whenever the transport fails, and
that failure propagates, aborting the run before any page download with
zero files written.  The HTTP status of the sitemap response is not
inspected: the body is parsed as XML regardless, so a non-success response
whose body is not well-formed XML aborts the run (with a parse error, not
a fetch error) before any download, while a non-success response with a
well-formed body is processed normally. -/
theorem sitemap_fetch_failure_aborts (st st2 : Nat) (b : Option Xml)
    (net : List Char → Option (Nat × List Char)) :
    runMain none net = Except.error SyncErr.fetchError
    ∧ runMain (some (st, none)) net = Except.error SyncErr.parseError
    ∧ fetch_sitemap (some (st, b)) = fetch_sitemap (some (st2, b)) := by
  refine ⟨rfl, rfl, ?_⟩
  cases b <;> rfl

/-- Claim C3: for a well-formed sitemap document all of whose `loc`
elements carry text, the Reader stage yields exactly one string per `loc`
element — `N` strings for `N` entries — in document (preorder) order,
each string being the element's text with no transformation applied. -/
theorem reader_yields_all_locs (root : Xml)
    (h : ∀ e ∈ findallLoc root, (Xml.text e).isSome = true) :
    readerTexts root =
        ((preorderIn root.children).filter (fun x => x.tag == "loc")).map Xml.text
    ∧ (readerTexts root).length = countLocIn root.children
    ∧ ∃ strs : List (List Char),
        readerTexts root = strs.map some ∧ strs.length = countLocIn root.children := by
  refine ⟨?_, ?_, ?_⟩
  · rw [readerTexts, findallLoc, locsIn_eq_filter]
  · rw [readerTexts, List.length_map, findallLoc, locsIn_length]
  · have hall : ∀ o ∈ readerTexts root, o.isSome = true := by
      intro o ho
      rw [readerTexts] at ho
      obtain ⟨e, he, rfl⟩ := List.mem_map.mp ho
      exact h e he
    obtain ⟨strs, hs, hl⟩ := exists_map_some_of_all_isSome (readerTexts root) hall
    exact ⟨strs, hs, by
      rw [hl, readerTexts, List.length_map, findallLoc, locsIn_length]⟩

/-- Witness for C3 at a concrete two-entry sitemap. -/
theorem reader_yields_all_locs_w :
    readerTexts xmlW =
        ((preorderIn xmlW.children).filter (fun x => x.tag == "loc")).map Xml.text
    ∧ (readerTexts xmlW).length = countLocIn xmlW.children
    ∧ ∃ strs : List (List Char),
        readerTexts xmlW = strs.map some ∧ strs.length = countLocIn xmlW.children :=
  reader_yields_all_locs xmlW (by decide)

/-- Claim C4: for a retained address whose markdown GET returns status
exactly 200, the Fetcher writes the full response body verbatim to
`<output-root>/<relative path after the doc root, stripped of leading and
trailing path separators>.md`, uses the literal name `index` when that
relative path is empty — so the site root page becomes
`docs/index.md` — and reports success.  The strip decomposition conjuncts
pin down what "stripped of leading and trailing path separators" means. -/
theorem download_success_writes_file (net : List Char → Option (Nat × List Char))
    (url body : List Char) (h : net (mdUrl url) = some (200, body)) :
    download_doc net url =
        { outcome := (url, true), written := some (filePathFor url, body), logged := none }
    ∧ filePathFor url = DOCS_DIR ++ '/' :: (destRelPath url ++ ".md".toList)
    ∧ destRelPath url =
        (if (stripSlash (splitDocsLast url)).isEmpty then "index".toList
         else stripSlash (splitDocsLast url))
    ∧ (∃ j k, splitDocsLast url =
          List.replicate j '/' ++ stripSlash (splitDocsLast url) ++ List.replicate k '/')
    ∧ (stripSlash (splitDocsLast url)).head? ≠ some '/'
    ∧ (stripSlash (splitDocsLast url)).getLast? ≠ some '/'
    ∧ filePathFor "https://example.com/docs/".toList = "docs/index.md".toList := by
  obtain ⟨j, k, hjk, hh, hl⟩ := stripSlash_decomp (splitDocsLast url)
  exact ⟨by simp [download_doc, h], rfl, rfl, ⟨j, k, hjk⟩, hh, hl, by decide⟩

/-- Witness for C4 at the spec's site-root scenario `https://example.com/docs/`. -/
theorem download_success_writes_file_w :
    download_doc netOk "https://example.com/docs/".toList =
        { outcome := ("https://example.com/docs/".toList, true),
          written := some (filePathFor "https://example.com/docs/".toList, "BODY".toList),
          logged := none }
    ∧ filePathFor "https://example.com/docs/".toList =
        DOCS_DIR ++ '/' :: (destRelPath "https://example.com/docs/".toList ++ ".md".toList)
    ∧ destRelPath "https://example.com/docs/".toList =
        (if (stripSlash (splitDocsLast "https://example.com/docs/".toList)).isEmpty
         then "index".toList
         else stripSlash (splitDocsLast "https://example.com/docs/".toList))
    ∧ (∃ j k, splitDocsLast "https://example.com/docs/".toList =
          List.replicate j '/'
            ++ stripSlash (splitDocsLast "https://example.com/docs/".toList)
            ++ List.replicate k '/')
    ∧ (stripSlash (splitDocsLast "https://example.com/docs/".toList)).head? ≠ some '/'
    ∧ (stripSlash (splitDocsLast "https://example.com/docs/".toList)).getLast? ≠ some '/'
    ∧ filePathFor "https://example.com/docs/".toList = "docs/index.md".toList :=
  download_success_writes_file netOk "https://example.com/docs/".toList "BODY".toList rfl

/-- Claim C5: a retained address whose markdown GET returns a status other
than 200, or whose download raises a transport exception, gets a failure
outcome with no file written, the offending URL is logged in the
exception case, and no other download is affected — every task's result
is a function of its own address and the network alone. -/
theorem download_failure_isolated (net : List Char → Option (Nat × List Char))
    (url : List Char)
    (h : net (mdUrl url) = none ∨ ∃ st b, net (mdUrl url) = some (st, b) ∧ st ≠ 200) :
    (download_doc net url).outcome = (url, false)
    ∧ (download_doc net url).written = none
    ∧ (net (mdUrl url) = none → (download_doc net url).logged = some url)
    ∧ ∀ (urls : List (List Char)) (i : Nat) (u : List Char),
        urls[i]? = some u → (runDownloads net urls)[i]? = some (download_doc net u) := by
  rcases h with h | ⟨st, b, h, hst⟩
  · exact ⟨by simp [download_doc, h], by simp [download_doc, h],
      fun _ => by simp [download_doc, h],
      fun urls i u hu => runDownloads_getElem? net urls i u hu⟩
  · refine ⟨by simp [download_doc, h, hst], by simp [download_doc, h, hst],
      fun hc => ?_, fun urls i u hu => runDownloads_getElem? net urls i u hu⟩
    rw [hc] at h
    cases h

/-- Witness for C5 at the spec's 404 scenario
`https://example.com/docs/agents/overview`. -/
theorem download_failure_isolated_w :
    (download_doc net404 "https://example.com/docs/agents/overview".toList).outcome =
        ("https://example.com/docs/agents/overview".toList, false)
    ∧ (download_doc net404 "https://example.com/docs/agents/overview".toList).written = none
    ∧ (net404 (mdUrl "https://example.com/docs/agents/overview".toList) = none →
        (download_doc net404 "https://example.com/docs/agents/overview".toList).logged =
          some "https://example.com/docs/agents/overview".toList)
    ∧ ∀ (urls : List (List Char)) (i : Nat) (u : List Char),
        urls[i]? = some u →
          (runDownloads net404 urls)[i]? = some (download_doc net404 u) :=
  download_failure_isolated net404 "https://example.com/docs/agents/overview".toList
    (Or.inr ⟨404, [], rfl, by decide⟩)

/-- Claim C6: the run produces exactly one Download Outcome per retained
address: the result list has the same length as the address list, its
outcomes carry exactly the input addresses in order, and position `i`
holds precisely the download of address `i` — nothing dropped, nothing
duplicated. -/
theorem outcomes_exact_fanout (net : List Char → Option (Nat × List Char))
    (urls : List (List Char)) :
    (runDownloads net urls).length = urls.length
    ∧ (runDownloads net urls).map (fun r => r.outcome.1) = urls
    ∧ ∀ (i : Nat) (u : List Char), urls[i]? = some u →
        (runDownloads net urls)[i]? = some (download_doc net u) :=
  ⟨by simp [runDownloads], runDownloads_map_fst net urls,
    fun i u hu => runDownloads_getElem? net urls i u hu⟩

/-- Witness for C6 on a concrete two-address list. -/
theorem outcomes_exact_fanout_w :
    (runDownloads netOk
        ["https://example.com/docs/a".toList, "https://example.com/docs/b".toList]).length =
      ["https://example.com/docs/a".toList, "https://example.com/docs/b".toList].length
    ∧ (runDownloads netOk
        ["https://example.com/docs/a".toList, "https://example.com/docs/b".toList]).map
          (fun r => r.outcome.1) =
      ["https://example.com/docs/a".toList, "https://example.com/docs/b".toList]
    ∧ ∀ (i : Nat) (u : List Char),
        ["https://example.com/docs/a".toList, "https://example.com/docs/b".toList][i]? =
            some u →
          (runDownloads netOk
              ["https://example.com/docs/a".toList,
                "https://example.com/docs/b".toList])[i]? =
            some (download_doc netOk u) :=
  outcomes_exact_fanout netOk
    ["https://example.com/docs/a".toList, "https://example.com/docs/b".toList]

/-- Claim C7: the URL the Fetcher requests for a retained address is
exactly the address with every trailing path separator stripped, followed
by the markdown suffix `.md`; the decomposition conjunct pins down the
trailing strip, and the final conjunct states that a download consults
the network at that URL only. -/
theorem request_url_is_md (url : List Char) :
    (∃ k, url = rstripSlash url ++ List.replicate k '/'
        ∧ (rstripSlash url).getLast? ≠ some '/')
    ∧ mdUrl url = rstripSlash url ++ ".md".toList
    ∧ ∀ net net2 : List Char → Option (Nat × List Char),
        net (mdUrl url) = net2 (mdUrl url) →
          download_doc net url = download_doc net2 url := by
  obtain ⟨k, hk, hl⟩ := rstripSlash_decomp url
  refine ⟨⟨k, hk, hl⟩, rfl, fun net net2 he => ?_⟩
  rw [download_doc, download_doc, he]

/-- Witness for C7 at the trailing-slash address `https://example.com/docs/`. -/
theorem request_url_is_md_w :
    (∃ k, "https://example.com/docs/".toList =
          rstripSlash "https://example.com/docs/".toList ++ List.replicate k '/'
        ∧ (rstripSlash "https://example.com/docs/".toList).getLast? ≠ some '/')
    ∧ mdUrl "https://example.com/docs/".toList =
        rstripSlash "https://example.com/docs/".toList ++ ".md".toList
    ∧ download_doc netOk "https://example.com/docs/".toList =
        download_doc netOk "https://example.com/docs/".toList :=
  ⟨(request_url_is_md "https://example.com/docs/".toList).1,
    (request_url_is_md "https://example.com/docs/".toList).2.1,
    (request_url_is_md "https://example.com/docs/".toList).2.2 netOk netOk rfl⟩

/-- Claim C8: the default admission-gate capacity is 10
(`CONCURRENT_REQUESTS`); in every scheduler state reachable from the
initial all-pending state, at most `limit` tasks hold a gate slot
simultaneously; and a task holding a slot releases it on each of the
three exit paths — success, non-success status, exception — every release
being a legal step that returns exactly one slot. -/
theorem gate_bound_and_release (limit n : Nat) (ps : List Phase)
    (h : GateReach limit (List.replicate n Phase.pending) ps) :
    CONCURRENT_REQUESTS = 10
    ∧ holdersCount ps ≤ limit
    ∧ ∀ (i : Nat) (e : ExitPath), ps[i]? = some Phase.holding →
        GateStep limit ps (ps.set i Phase.done)
        ∧ holdersCount (ps.set i Phase.done) + 1 = holdersCount ps :=
  ⟨rfl, gate_holders_le limit n ps h,
    fun i e hp => ⟨GateStep.finish ps i e hp, holdersCount_set_finish ps i hp⟩⟩

/-- Witness for C8 after one acquire step with capacity 10. -/
theorem gate_bound_and_release_w :
    CONCURRENT_REQUESTS = 10
    ∧ holdersCount [Phase.holding] ≤ 10
    ∧ ∀ (i : Nat) (e : ExitPath), [Phase.holding][i]? = some Phase.holding →
        GateStep 10 [Phase.holding] ([Phase.holding].set i Phase.done)
        ∧ holdersCount ([Phase.holding].set i Phase.done) + 1 =
            holdersCount [Phase.holding] :=
  gate_bound_and_release 10 1 [Phase.holding]
    (GateReach.tail (GateReach.refl (List.replicate 1 Phase.pending))
      (GateStep.acquire (List.replicate 1 Phase.pending) 0 rfl (by decide)))

/-- Claim C9: the process outcome does not depend on how many page
downloads failed — whether the run completes normally is unchanged by
replacing the download network oracle — an error escapes exactly when the
sitemap stage failed, and every completed run reports a success/failure
tally accounting for all outcomes. -/
theorem run_exit_and_tally (resp : Option (Nat × Option Xml))
    (net : List Char → Option (Nat × List Char)) :
    ((∃ e, runMain resp net = Except.error e) ↔
        (∃ e, fetch_sitemap resp = Except.error e))
    ∧ (∀ net2, exceptOk (runMain resp net) = exceptOk (runMain resp net2))
    ∧ ∀ rs, runMain resp net = Except.ok rs →
        (tally rs).1 + (tally rs).2 = rs.length := by
  refine ⟨?_, ?_, fun rs _ => tally_sum rs⟩
  · cases hf : fetch_sitemap resp with
    | error _ => simp [runMain, hf]
    | ok urls => simp [runMain, hf]
  · intro net2
    cases hf : fetch_sitemap resp with
    | error _ => simp [runMain, hf, exceptOk]
    | ok urls => simp [runMain, hf, exceptOk]

/-- Witness for C9 on a concrete successful run. -/
theorem run_exit_and_tally_w :
    (tally resultsEx).1 + (tally resultsEx).2 = resultsEx.length :=
  (run_exit_and_tally (some (200, some xmlEx)) netOk).2.2 resultsEx rfl

/-- Counterexample to claim C10 as stated: in `cexUrl` the marker occurs
twice, the occurrences overlapping on the shared `/`.  The text after the
last occurrence is empty, so a path computed from it would be the literal
`index`; but the code's non-overlapping split keeps `docs/`, and the
output name is `docs` — the output path is not computed from the text
after the last occurrence of the marker. -/
theorem marker_last_occurrence_cex :
    countOcc cexUrl = 2
    ∧ afterLastOcc cexUrl = []
    ∧ splitDocsLast cexUrl = "docs/".toList
    ∧ destRelPath cexUrl = "docs".toList
    ∧ (if (stripSlash (afterLastOcc cexUrl)).isEmpty then "index".toList
        else stripSlash (afterLastOcc cexUrl)) = "index".toList
    ∧ destRelPath cexUrl ≠
        (if (stripSlash (afterLastOcc cexUrl)).isEmpty then "index".toList
         else stripSlash (afterLastOcc cexUrl)) := by
  refine ⟨rfl, rfl, rfl, rfl, rfl, by decide⟩

/-- Claim C10 (amended): when the marker occurs more than once, both the
Language Filter decision and the output-file path are computed from the
final piece of the left-to-right non-overlapping split on the marker
(`splitDocsLast` — the text after the last scan match, which coincides
with the last occurrence whenever occurrences do not overlap), not from
the first occurrence: URLs agreeing on marker presence and on that final
piece get the same filter decision and the same output path, and the
example URL `https://example.com/docs/guide/docs/de/x` is excluded as a
translated page even though the text after its first occurrence does not
match a language code. -/
theorem marker_last_scan_match (u v : List Char)
    (h1 : splitDocsLast u = splitDocsLast v) (h2 : hasMarker u = hasMarker v) :
    ((fetchFilter [some u] = [u] ↔ fetchFilter [some v] = [v])
      ∧ destRelPath u = destRelPath v)
    ∧ splitDocsLast exUrl = "de/x".toList
    ∧ fetchFilter [some exUrl] = []
    ∧ afterFirstOcc exUrl = "guide/docs/de/x".toList
    ∧ hasLangMatch (afterFirstOcc exUrl) = false := by
  refine ⟨⟨?_, by simp only [destRelPath, h1]⟩, by decide, by decide, by decide, by decide⟩
  by_cases hm : hasMarker u = true
  · have hmv : hasMarker v = true := by rw [← h2]; exact hm
    have hnu := hasMarker_isEmpty_false hm
    have hnv := hasMarker_isEmpty_false hmv
    by_cases hl : hasLangMatch (splitDocsLast u) = true
    · have hlv : hasLangMatch (splitDocsLast v) = true := by rw [← h1]; exact hl
      simp [fetchFilter, hnu, hnv, hm, hmv, hl, hlv]
    · have hlv : ¬ hasLangMatch (splitDocsLast v) = true := by rw [← h1]; exact hl
      simp [fetchFilter, hnu, hnv, hm, hmv, hl, hlv]
  · have hmv : ¬ hasMarker v = true := by rw [← h2]; exact hm
    simp [fetchFilter, hm, hmv]

/-- Witness for C10 (amended) at two distinct URLs sharing the final split
piece `x`. -/
theorem marker_last_scan_match_w :
    ((fetchFilter [some "https://a/docs/x".toList] = ["https://a/docs/x".toList] ↔
        fetchFilter [some "https://b/docs/x".toList] = ["https://b/docs/x".toList])
      ∧ destRelPath "https://a/docs/x".toList = destRelPath "https://b/docs/x".toList)
    ∧ splitDocsLast exUrl = "de/x".toList
    ∧ fetchFilter [some exUrl] = []
    ∧ afterFirstOcc exUrl = "guide/docs/de/x".toList
    ∧ hasLangMatch (afterFirstOcc exUrl) = false :=
  marker_last_scan_match "https://a/docs/x".toList "https://b/docs/x".toList
    (by decide) (by decide)

end SyncDocs
